import Mathlib

/-!
# Transaction preparation of the Tezos connector

A shallow embedding of `internal/tezos/prepare_transaction.go`
(`TransactionPrepare`, `prepareInputParams`, `buildOp`, `completeOp`,
`getNetworkParamsByName`, `getPubKeyFromSignatory`) together with the few
operations of the `tzgo` codec the file calls on an operation under
construction.

Conventions of the embedding:

* a Go function that mutates the operation through a pointer becomes a function
  that returns the operation after the call;
* a `(value, error)` result of a library or of the network becomes
  `Except Error value`, a failed read handing back the zero value; a lone
  `error` becomes `Option Error`; the results of `completeOp`, `buildOp` and
  `TransactionPrepare` keep each returned component as a field;
* `int64` values are integers, and every `int64` addition of the source is
  wrapped with `wrapInt64`;
* every request sent to the chain node or to the signatory service is recorded,
  in order, in a list of `Call`s returned next to the result;
* what the libraries compute (address and key parsing, Micheline JSON decoding,
  binary encoding, the Unicode case table) and what the network answers are
  fields of `Env`.
-/

namespace Tezosconnect

/-! ## Machine integers -/

/-- Two's complement reduction of an integer to the `int64` range. -/
def wrapInt64 (x : Int) : Int := (x + 2 ^ 63) % 2 ^ 64 - 2 ^ 63

/-- Largest `int64`. -/
def maxInt64 : Int := 2 ^ 63 - 1

/-- Smallest `int64`. -/
def minInt64 : Int := -(2 ^ 63)

/-! ## Values of the libraries -/

/-- Error values. The first three are built by `i18n.NewError` in the source,
`wrongStatusCode` by `fmt.Errorf` in `getPubKeyFromSignatory`, and `library`
stands for an error handed back by a library or by the network. -/
inductive Error where
  | unmarshalParamFail (index : Nat) (cause : Error)
  | invalidToAddress (text : String) (cause : Error)
  | invalidFromAddress (text : String) (cause : Error)
  | wrongStatusCode (code : Int)
  | library (msg : String)
  deriving DecidableEq, Repr

/-- A parsed `tezos.Address`. -/
structure Address where
  text : String
  deriving DecidableEq, Repr

/-- The zero value of `tezos.Address`. -/
def Address.zero : Address := ⟨""⟩

/-- A parsed `tezos.Key`. -/
structure Key where
  text : String
  deriving DecidableEq, Repr

/-- A `tezos.BlockHash`. -/
structure BlockHash where
  text : String
  deriving DecidableEq, Repr

/-- The zero value of `tezos.BlockHash`, the empty hash. -/
def BlockHash.zero : BlockHash := ⟨""⟩

/-- A `micheline.Parameters` value: entrypoint and rendered value. -/
structure Parameters where
  entrypoint : String
  value : String
  deriving DecidableEq, Repr

/-- The zero value of `micheline.Parameters` (`var tezosParams micheline.Parameters`). -/
def Parameters.zero : Parameters := ⟨"", ""⟩

/-- The three presets `getNetworkParamsByName` chooses from
(`tezos.DefaultParams`, `tezos.GhostnetParams`, `tezos.NairobinetParams`). -/
inductive TezosParams where
  | DefaultParams
  | GhostnetParams
  | NairobinetParams
  deriving DecidableEq, Repr

/-- A `tezos.Limits` value. -/
structure Limits where
  Fee : Int
  GasLimit : Int
  StorageLimit : Int
  deriving DecidableEq, Repr

/-- The fields `codec.Manager` shares between all manager operations. -/
structure Manager where
  Source : Address
  Fee : Int
  Counter : Int
  GasLimit : Int
  StorageLimit : Int
  deriving DecidableEq, Repr

/-- A `codec.Manager` literal that sets `Source` only. -/
def Manager.ofSource (a : Address) : Manager := ⟨a, 0, 0, 0, 0⟩

/-- One entry of `Op.Contents`: the two manager operations the source builds,
and `simple`, the codec's operations without fee and counter. -/
inductive Operation where
  | reveal (m : Manager) (PublicKey : Key)
  | transaction (m : Manager) (Amount : Int) (Destination : Address) (Parameters : Parameters)
  | simple
  deriving DecidableEq, Repr

/-- Embeds `GetCounter`: the counter of a manager operation, `-1` for the others. -/
def Operation.GetCounter : Operation → Int
  | .reveal m _ => m.Counter
  | .transaction m _ _ _ => m.Counter
  | .simple => -1

/-- Embeds `WithCounter`: sets the counter of a manager operation, does nothing on the others. -/
def Operation.WithCounter : Operation → Int → Operation
  | .reveal m k, c => .reveal { m with Counter := c } k
  | .transaction m a d p, c => .transaction { m with Counter := c } a d p
  | .simple, _ => .simple

/-- Embeds `WithSource` on an entry: sets the source of a manager operation. -/
def Operation.WithSource : Operation → Address → Operation
  | .reveal m k, a => .reveal { m with Source := a } k
  | .transaction m x d p, a => .transaction { m with Source := a } x d p
  | .simple, _ => .simple

/-- Embeds `WithLimits` on an entry: sets fee, gas limit and storage limit. -/
def Operation.WithLimits : Operation → Limits → Operation
  | .reveal m k, l =>
      .reveal { m with Fee := l.Fee, GasLimit := l.GasLimit, StorageLimit := l.StorageLimit } k
  | .transaction m x d p, l =>
      .transaction { m with Fee := l.Fee, GasLimit := l.GasLimit, StorageLimit := l.StorageLimit } x d p
  | .simple, _ => .simple

/-- Whether the entry is a `codec.Reveal`. -/
def Operation.isReveal : Operation → Bool
  | .reveal _ _ => true
  | _ => false

/-- The fields of `codec.Op` the source reads or writes. -/
structure Op where
  Branch : BlockHash
  Contents : List Operation
  Params : TezosParams
  Source : Address
  deriving DecidableEq, Repr

/-- Embeds `codec.NewOp()`. -/
def NewOp : Op := ⟨BlockHash.zero, [], TezosParams.DefaultParams, Address.zero⟩

/-- Embeds `Op.WithContents`: appends an entry. -/
def Op.WithContents (o : Op) (e : Operation) : Op := { o with Contents := o.Contents ++ [e] }

/-- Embeds `Op.WithContentsFront`: prepends an entry. -/
def Op.WithContentsFront (o : Op) (e : Operation) : Op := { o with Contents := e :: o.Contents }

/-- Embeds `Op.WithSource`: sets the source of the operation and of each of its entries. -/
def Op.WithSource (o : Op) (a : Address) : Op :=
  { o with Contents := o.Contents.map (fun e => e.WithSource a), Source := a }

/-- Embeds `Op.WithBranch`. -/
def Op.WithBranch (o : Op) (h : BlockHash) : Op := { o with Branch := h }

/-- Embeds `Op.WithParams`. -/
def Op.WithParams (o : Op) (p : TezosParams) : Op := { o with Params := p }

/-- The `contract.TxArgs` builder. -/
structure TxArgs where
  Source : Address
  Destination : Address
  Amount : Int
  Params : Parameters
  deriving DecidableEq, Repr

/-- The literal `contract.TxArgs{}`. -/
def TxArgs.zero : TxArgs := ⟨Address.zero, Address.zero, 0, Parameters.zero⟩

/-- Embeds `TxArgs.WithParameters`. -/
def TxArgs.WithParameters (a : TxArgs) (p : Parameters) : TxArgs := { a with Params := p }

/-- Embeds `TxArgs.WithDestination`. -/
def TxArgs.WithDestination (a : TxArgs) (d : Address) : TxArgs := { a with Destination := d }

/-- Embeds `TxArgs.Encode`: the `codec.Transaction` of the arguments. -/
def TxArgs.Encode (a : TxArgs) : Operation :=
  .transaction (Manager.ofSource a.Source) a.Amount a.Destination a.Params

/-- The part of `rpc.ContractInfo` the source reads: `Counter` and `IsRevealed()`. -/
structure ContractInfo where
  Counter : Int
  Revealed : Bool
  deriving DecidableEq, Repr

/-- Embeds `ContractInfo.IsRevealed`. -/
def ContractInfo.IsRevealed (s : ContractInfo) : Bool := s.Revealed

/-- An HTTP response as `getPubKeyFromSignatory` uses it: the status code and
the outcome of `io.ReadAll(resp.Body)`. -/
structure HttpResponse where
  StatusCode : Int
  Body : Except Error String

/-- A request that left the process. -/
inductive Call where
  | getBlockHash
  | getContractExt (a : Address)
  | signatoryGet (url : String)
  deriving DecidableEq, Repr

/-- Whether the call went to the signatory (custody) service. -/
def Call.isSignatory : Call → Bool
  | .signatoryGet _ => true
  | _ => false

/-- The libraries and the network, as seen from the source. -/
structure Env where
  -- `tezos.ParseAddress`.
  ParseAddress : String → Except Error Address
  -- `tezos.Address.String`.
  addressString : Address → String
  -- `tezos.ParseKey`.
  ParseKey : String → Except Error Key
  -- `micheline.Parameters.UnmarshalJSON`: the receiver before the call and the
  -- JSON text give the receiver after the call and the error.
  UnmarshalJSON : Parameters → String → Parameters × Option Error
  -- `unicode.ToLower` on the runes above ASCII.
  unicodeToLower : Char → Char
  -- `codec.Op.Bytes`.
  Bytes : Op → List Nat
  -- `rpc.DefaultRevealLimits`.
  DefaultRevealLimits : Limits
  -- `client.GetBlockHash(ctx, rpc.Head)`.
  GetBlockHash : Except Error BlockHash
  -- `client.GetContractExt(ctx, addr, rpc.Head)`.
  GetContractExt : Address → Except Error ContractInfo
  -- `http.NewRequest("GET", url, nil)`: the error, if the request cannot be built.
  NewRequest : String → Option Error
  -- `(&http.Client{}).Do(req)` for a GET of the URL.
  Do : String → Except Error HttpResponse
  -- `json.Unmarshal(body, &pubKeyJson)`: the `public_key` field of the body.
  jsonPublicKey : String → Except Error String

/-- The fields of `tezosConnector` the source reads. -/
structure tezosConnector where
  networkName : String
  signatoryURL : String
  deriving DecidableEq, Repr

/-! ## `fftypes.FFBigInt` and `strings`, `encoding/hex` -/

/-- Embeds `(*big.Int).Int64`: the low 64 bits of the magnitude as an `int64`, negated
when the number is negative. -/
def bigIntInt64 (x : Int) : Int :=
  let v := wrapInt64 ((x.natAbs : Int) % 2 ^ 64)
  if x < 0 then wrapInt64 (-v) else v

/-- Embeds `(*fftypes.FFBigInt).Int64`: `0` for the nil pointer. -/
def FFBigInt.Int64 : Option Int → Int
  | none => 0
  | some x => bigIntInt64 x

/-- Embeds `unicode.ToLower` on one rune: the ASCII rule below `0x80`, the case table above. -/
def lowerRune (env : Env) (r : Char) : Char :=
  if r.toNat < 128 then
    (if 'A'.toNat ≤ r.toNat ∧ r.toNat ≤ 'Z'.toNat then Char.ofNat (r.toNat + 32) else r)
  else env.unicodeToLower r

/-- Embeds `strings.ToLower`. -/
def ToLower (env : Env) (s : String) : String := String.mk (s.data.map (lowerRune env))

/-- One digit of `encoding/hex`. -/
def hexDigit (n : Nat) : Char := "0123456789abcdef".data.getD n '0'

/-- Embeds `hex.EncodeToString`. -/
def EncodeToString (bs : List Nat) : String :=
  String.mk (bs.flatMap (fun b => [hexDigit (b / 16 % 16), hexDigit (b % 16)]))

/-! ## The source file -/

/-- Embeds `getNetworkParamsByName`. -/
def getNetworkParamsByName (env : Env) (name : String) : TezosParams :=
  let l := ToLower env name
  if l = "ghostnet" then TezosParams.GhostnetParams
  else if l = "nairobinet" then TezosParams.NairobinetParams
  else TezosParams.DefaultParams

/-- The loop of `prepareInputParams`, from index `i` on, with the accumulator
`tezosParams`. -/
def prepareInputParamsFrom (env : Env) : Nat → List (Option String) → Parameters → Parameters × Option Error
  | _, [], tezosParams => (tezosParams, none)
  | i, none :: rest, tezosParams => prepareInputParamsFrom env (i + 1) rest tezosParams
  | i, some p :: rest, tezosParams =>
      match env.UnmarshalJSON tezosParams p with
      | (tezosParams1, some err) => (tezosParams1, some (Error.unmarshalParamFail i err))
      | (tezosParams1, none) => prepareInputParamsFrom env (i + 1) rest tezosParams1

/-- Embeds `prepareInputParams`, on `req.Params`. -/
def prepareInputParams (env : Env) (params : List (Option String)) : Parameters × Option Error :=
  prepareInputParamsFrom env 0 params Parameters.zero

/-- Embeds `getPubKeyFromSignatory`: the key or the error, and the requests sent. -/
def getPubKeyFromSignatory (env : Env) (c : tezosConnector) (tezosAddress : String) :
    Except Error Key × List Call :=
  let url := c.signatoryURL ++ "/keys/" ++ tezosAddress
  match env.NewRequest url with
  | some err => (.error err, [])
  | none =>
    match env.Do url with
    | .error err => (.error err, [Call.signatoryGet url])
    | .ok resp =>
      if resp.StatusCode ≠ 200 then
        (.error (Error.wrongStatusCode resp.StatusCode), [Call.signatoryGet url])
      else
        match resp.Body with
        | .error err => (.error err, [Call.signatoryGet url])
        | .ok body =>
          match env.jsonPublicKey body with
          | .error err => (.error err, [Call.signatoryGet url])
          | .ok pubKey =>
            match env.ParseKey pubKey with
            | .error err => (.error err, [Call.signatoryGet url])
            | .ok key => (.ok key, [Call.signatoryGet url])

/-- The counter loop of `completeOp`: entries with a negative `GetCounter` are
passed over, each other entry takes `nextCounter`, which is then incremented. -/
def assignCounters : Int → List Operation → List Operation
  | _, [] => []
  | nextCounter, e :: rest =>
      if e.GetCounter < 0 then e :: assignCounters nextCounter rest
      else e.WithCounter nextCounter :: assignCounters (wrapInt64 (nextCounter + 1)) rest

/-- What `completeOp` leaves behind: the operation after the call, the returned
error and the requests sent. -/
structure Completion where
  op : Op
  err : Option Error
  calls : List Call
  deriving DecidableEq, Repr

/-- Embeds `completeOp`. The error of `GetBlockHash` is dropped (`hash, _ :=`) and
the hash handed back, the zero hash on a failed read, becomes the branch. -/
def completeOp (env : Env) (c : tezosConnector) (op : Op) (fromString : String)
    (nonce : Option Int) : Completion :=
  match env.ParseAddress fromString with
  | .error err => ⟨op, some (Error.invalidFromAddress fromString err), []⟩
  | .ok fromAddress =>
    let op := op.WithSource fromAddress
    let hash := match env.GetBlockHash with
      | .ok h => h
      | .error _ => BlockHash.zero
    let op := op.WithBranch hash
    let op := op.WithParams (getNetworkParamsByName env c.networkName)
    match env.GetContractExt fromAddress with
    | .error err => ⟨op, some err, [Call.getBlockHash, Call.getContractExt fromAddress]⟩
    | .ok state =>
      let revealed : Except Error Op × List Call :=
        if !state.IsRevealed then
          match getPubKeyFromSignatory env c (env.addressString op.Source) with
          | (.error err, calls) => (.error err, calls)
          | (.ok key, calls) =>
            let reveal := Operation.reveal (Manager.ofSource fromAddress) key
            let reveal := reveal.WithLimits env.DefaultRevealLimits
            (.ok (op.WithContentsFront reveal), calls)
        else (.ok op, [])
      match revealed with
      | (.error err, calls) =>
        ⟨op, some err, [Call.getBlockHash, Call.getContractExt fromAddress] ++ calls⟩
      | (.ok op, calls) =>
        let nextCounter := FFBigInt.Int64 nonce
        let nextCounter :=
          if nextCounter ≠ wrapInt64 (state.Counter + 1) then wrapInt64 (state.Counter + 1)
          else nextCounter
        ⟨{ op with Contents := assignCounters nextCounter op.Contents }, none,
          [Call.getBlockHash, Call.getContractExt fromAddress] ++ calls⟩

/-- What `buildOp` returns, and the requests sent. -/
structure Built where
  op : Option Op
  err : Option Error
  calls : List Call
  deriving DecidableEq, Repr

/-- Embeds `buildOp`. The result of `completeOp` is not looked at. -/
def buildOp (env : Env) (c : tezosConnector) (params : Parameters)
    (fromString toString : String) (nonce : Option Int) : Built :=
  let op := NewOp
  match env.ParseAddress toString with
  | .error err => ⟨none, some (Error.invalidToAddress toString err), []⟩
  | .ok toAddress =>
    let txArgs := TxArgs.zero
    let txArgs := txArgs.WithParameters params
    let txArgs := txArgs.WithDestination toAddress
    let op := op.WithContents txArgs.Encode
    let done := completeOp env c op fromString nonce
    ⟨some done.op, none, done.calls⟩

/-- Embeds `ffcapi.ErrorReason`: the empty reason and `ErrorReasonInvalidInputs`. -/
inductive ErrorReason where
  | empty
  | InvalidInputs
  deriving DecidableEq, Repr

/-- The fields of `ffcapi.TransactionPrepareRequest` the source reads. -/
structure TransactionPrepareRequest where
  From : String
  To : String
  Nonce : Option Int
  Gas : Option Int
  Params : List (Option String)
  deriving DecidableEq, Repr

/-- Embeds `ffcapi.TransactionPrepareResponse`. -/
structure TransactionPrepareResponse where
  Gas : Option Int
  TransactionData : String
  deriving DecidableEq, Repr

/-- What `TransactionPrepare` returns, and the requests sent. -/
structure Prepared where
  response : Option TransactionPrepareResponse
  reason : ErrorReason
  err : Option Error
  calls : List Call
  deriving DecidableEq, Repr

/-- Embeds `TransactionPrepare`. The last arm is never taken: `buildOp` returns an
operation whenever it returns no error. -/
def TransactionPrepare (env : Env) (c : tezosConnector) (req : TransactionPrepareRequest) :
    Prepared :=
  match prepareInputParams env req.Params with
  | (_, some err) => ⟨none, ErrorReason.InvalidInputs, some err, []⟩
  | (params, none) =>
    let built := buildOp env c params req.From req.To req.Nonce
    match built.err, built.op with
    | some err, _ => ⟨none, ErrorReason.InvalidInputs, some err, built.calls⟩
    | none, some op =>
      ⟨some ⟨req.Gas, EncodeToString (env.Bytes op)⟩, ErrorReason.empty, none, built.calls⟩
    | none, none => ⟨none, ErrorReason.empty, none, built.calls⟩

/-! ## A concrete environment

Used to run the definitions on concrete inputs. -/

/-- A sample environment: addresses are the texts that begin with `tz1`, keys the
texts that begin with `edpk`, a parameter text decodes when it begins with `[`;
the node knows a head `BLhead` and an unrevealed account with counter `41`, and
the signatory service answers `200` with the key `edpkK`. -/
def sampleEnv : Env where
  ParseAddress := fun s =>
    if s.data.take 3 = ['t', 'z', '1'] then .ok ⟨s⟩ else .error (Error.library "invalid address")
  addressString := fun a => a.text
  ParseKey := fun s =>
    if s.data.take 4 = ['e', 'd', 'p', 'k'] then .ok ⟨s⟩ else .error (Error.library "invalid key")
  UnmarshalJSON := fun p s =>
    if s.data.head? = some '[' then (⟨"default", s⟩, none)
    else (p, some (Error.library "invalid parameters"))
  unicodeToLower := fun r => r
  Bytes := fun op => op.Contents.map (fun e => (e.GetCounter % 256).toNat)
  DefaultRevealLimits := ⟨1000, 1000, 0⟩
  GetBlockHash := .ok ⟨"BLhead"⟩
  GetContractExt := fun _ => .ok ⟨41, false⟩
  NewRequest := fun _ => none
  Do := fun _ => .ok ⟨200, .ok "body"⟩
  jsonPublicKey := fun _ => .ok "edpkK"

/-- A connector on an unrecognised network. -/
def sampleConnector : tezosConnector := ⟨"testnet", "http://signatory"⟩

/-! ## Notions used to state the properties -/

/-- The decoder as the specification words it: each present text, in sequence
order, is unmarshaled into the accumulator; the first text that fails stops the
decoding. The result is the accumulator and whether a text failed. -/
def unmarshalInOrder (env : Env) : List String → Parameters → Parameters × Bool
  | [], acc => (acc, false)
  | t :: rest, acc =>
      match env.UnmarshalJSON acc t with
      | (acc1, some _) => (acc1, true)
      | (acc1, none) => unmarshalInOrder env rest acc1

/-- The number of entries of a content sequence whose `GetCounter` is not
negative: the entries the counter loop numbers. -/
def managerCount (l : List Operation) : Nat :=
  (l.filter (fun e => decide (0 ≤ e.GetCounter))).length

/-- The branch `completeOp` attaches: the head hash, or the empty hash when the
read fails. -/
def branchOf (env : Env) : BlockHash :=
  match env.GetBlockHash with
  | .ok h => h
  | .error _ => BlockHash.zero

/-- The operation as `completeOp` has it once source, branch and network
parameters are attached. -/
def attached (env : Env) (c : tezosConnector) (op : Op) (a : Address) : Op :=
  ((op.WithSource a).WithBranch (branchOf env)).WithParams (getNetworkParamsByName env c.networkName)

/-- The `Reveal` entry `completeOp` builds for the source `a` and the key `k`. -/
def revealOf (env : Env) (a : Address) (k : Key) : Operation :=
  (Operation.reveal (Manager.ofSource a) k).WithLimits env.DefaultRevealLimits

/-- The entries the counter loop of `completeOp` runs over, for the parsed
source `a` and the account state `state`: the entries of the operation with the
source attached, behind the `Reveal` when the account is unrevealed and the key
lookup answered. -/
def contentsBeforeCounters (env : Env) (c : tezosConnector) (op : Op) (a : Address)
    (state : ContractInfo) : List Operation :=
  if state.IsRevealed then (op.WithSource a).Contents
  else
    match (getPubKeyFromSignatory env c (env.addressString a)).1 with
    | .ok k => revealOf env a k :: (op.WithSource a).Contents
    | .error _ => (op.WithSource a).Contents

/-! ## Network presets -/

/-- The empty text lower-cases to itself. -/
theorem ToLower_nil (env : Env) : ToLower env "" = "" := rfl

/-- C8: `getNetworkParamsByName` is a total function of the lower-cased name:
it returns the Ghostnet preset exactly when the lower-cased name is `ghostnet`,
the Nairobinet preset exactly when it is `nairobinet`, the default preset for
every other name, the empty name included; two names with the same lower-cased
text select the same preset. -/
theorem getNetworkParamsByName_case_insensitive (env : Env) (s : String) :
    (getNetworkParamsByName env s = TezosParams.GhostnetParams ↔ ToLower env s = "ghostnet") ∧
    (getNetworkParamsByName env s = TezosParams.NairobinetParams ↔
      ToLower env s = "nairobinet") ∧
    (getNetworkParamsByName env s = TezosParams.DefaultParams ↔
      (ToLower env s ≠ "ghostnet" ∧ ToLower env s ≠ "nairobinet")) ∧
    getNetworkParamsByName env "" = TezosParams.DefaultParams ∧
    (∀ t : String, ToLower env s = ToLower env t →
      getNetworkParamsByName env s = getNetworkParamsByName env t) := by
  have hne : ("ghostnet" : String) ≠ "nairobinet" := by decide
  refine ⟨?_, ?_, ?_, ?_, ?_⟩
  · unfold getNetworkParamsByName
    by_cases h1 : ToLower env s = "ghostnet"
    · simp [h1]
    · by_cases h2 : ToLower env s = "nairobinet" <;> simp [h1, h2]
  · unfold getNetworkParamsByName
    by_cases h1 : ToLower env s = "ghostnet"
    · simp [h1, hne]
    · by_cases h2 : ToLower env s = "nairobinet" <;> simp [h1, h2]
  · unfold getNetworkParamsByName
    by_cases h1 : ToLower env s = "ghostnet"
    · simp [h1]
    · by_cases h2 : ToLower env s = "nairobinet" <;> simp [h1, h2]
  · unfold getNetworkParamsByName
    rw [ToLower_nil]
    decide
  · intro t ht
    unfold getNetworkParamsByName
    rw [ht]

/-- C8 on concrete names: `GhostNet` and `GHOSTNET` lower-case to the same text
and both select the Ghostnet preset. -/
theorem getNetworkParamsByName_case_insensitive_witness :
    ToLower sampleEnv "GhostNet" = ToLower sampleEnv "GHOSTNET" ∧
    getNetworkParamsByName sampleEnv "GhostNet" = TezosParams.GhostnetParams ∧
    getNetworkParamsByName sampleEnv "GhostNet" = getNetworkParamsByName sampleEnv "GHOSTNET" :=
  ⟨by decide,
   ((getNetworkParamsByName_case_insensitive sampleEnv "GhostNet").1).2 (by decide),
   (getNetworkParamsByName_case_insensitive sampleEnv "GhostNet").2.2.2.2 "GHOSTNET" (by decide)⟩

/-! ## Parameter decoding -/

/-- The loop of `prepareInputParams` decodes the same parameters, and fails on
the same inputs, when the absent entries are removed first; the index the loop
starts from only shows in the error value. -/
theorem prepareInputParamsFrom_filter (env : Env) (ps : List (Option String)) :
    ∀ (i j : Nat) (acc : Parameters),
      (prepareInputParamsFrom env i ps acc).1 =
        (prepareInputParamsFrom env j (ps.filter Option.isSome) acc).1 ∧
      (prepareInputParamsFrom env i ps acc).2.isSome =
        (prepareInputParamsFrom env j (ps.filter Option.isSome) acc).2.isSome := by
  induction ps with
  | nil => intro i j acc; simp [prepareInputParamsFrom]
  | cons p rest ih =>
    intro i j acc
    cases p with
    | none =>
      simp only [prepareInputParamsFrom, List.filter, Option.isSome]
      exact ih (i + 1) j acc
    | some t =>
      simp only [prepareInputParamsFrom, List.filter, Option.isSome]
      rcases h : env.UnmarshalJSON acc t with ⟨acc1, _ | err⟩
      · simp only []
        exact ih (i + 1) (j + 1) acc1
      · simp

/-- The loop of `prepareInputParams` returns its accumulator unchanged, and no
error, on a sequence of absent entries. -/
theorem prepareInputParamsFrom_all_none (env : Env) (ps : List (Option String))
    (h : ∀ p ∈ ps, p = none) :
    ∀ (i : Nat) (acc : Parameters), prepareInputParamsFrom env i ps acc = (acc, none) := by
  induction ps with
  | nil => intro i acc; simp [prepareInputParamsFrom]
  | cons p rest ih =>
    intro i acc
    have hp : p = none := h p (List.mem_cons_self _ _)
    subst hp
    simp only [prepareInputParamsFrom]
    exact ih (fun q hq => h q (List.mem_cons_of_mem _ hq)) (i + 1) acc

/-- The loop of `prepareInputParams` is the in-order decoding of the present
entries. -/
theorem prepareInputParamsFrom_inOrder (env : Env) (ps : List (Option String)) :
    ∀ (i : Nat) (acc : Parameters),
      (prepareInputParamsFrom env i ps acc).1 =
        (unmarshalInOrder env (ps.filterMap id) acc).1 ∧
      (prepareInputParamsFrom env i ps acc).2.isSome =
        (unmarshalInOrder env (ps.filterMap id) acc).2 := by
  induction ps with
  | nil => intro i acc; simp [prepareInputParamsFrom, unmarshalInOrder]
  | cons p rest ih =>
    intro i acc
    cases p with
    | none =>
      simp only [prepareInputParamsFrom, List.filterMap_cons, id]
      exact ih (i + 1) acc
    | some t =>
      simp only [prepareInputParamsFrom, List.filterMap_cons, id, unmarshalInOrder]
      rcases h : env.UnmarshalJSON acc t with ⟨acc1, _ | err⟩
      · simp only []
        exact ih (i + 1) acc1
      · simp

/-- C9: `prepareInputParams` skips absent entries. The decoded parameters, and
whether decoding fails, are those obtained from the sequence with the absent
entries removed; they are those of unmarshaling the present texts one after the
other in their original order; a sequence of absent entries only, the empty one
included, gives the zero parameters and no error. -/
theorem prepareInputParams_skips_absent (env : Env) (ps : List (Option String)) :
    (prepareInputParams env ps).1 = (prepareInputParams env (ps.filter Option.isSome)).1 ∧
    (prepareInputParams env ps).2.isSome =
      (prepareInputParams env (ps.filter Option.isSome)).2.isSome ∧
    (prepareInputParams env ps).1 =
      (unmarshalInOrder env (ps.filterMap id) Parameters.zero).1 ∧
    (prepareInputParams env ps).2.isSome =
      (unmarshalInOrder env (ps.filterMap id) Parameters.zero).2 ∧
    ((∀ p ∈ ps, p = none) → prepareInputParams env ps = (Parameters.zero, none)) := by
  refine ⟨(prepareInputParamsFrom_filter env ps 0 0 Parameters.zero).1,
    (prepareInputParamsFrom_filter env ps 0 0 Parameters.zero).2,
    (prepareInputParamsFrom_inOrder env ps 0 Parameters.zero).1,
    (prepareInputParamsFrom_inOrder env ps 0 Parameters.zero).2, ?_⟩
  intro h
  exact prepareInputParamsFrom_all_none env ps h 0 Parameters.zero

/-- C9 on concrete sequences: an absent entry between two present ones changes
nothing, and two absent entries decode to the zero parameters. -/
theorem prepareInputParams_skips_absent_witness :
    prepareInputParams sampleEnv [some "[1]", none, some "[2]"] = (⟨"default", "[2]"⟩, none) ∧
    (∀ p ∈ [(none : Option String), none], p = none) ∧
    prepareInputParams sampleEnv [none, none] = (Parameters.zero, none) :=
  ⟨by decide, by decide,
   (prepareInputParams_skips_absent sampleEnv [none, none]).2.2.2.2 (by decide)⟩

/-! ## The stages of `completeOp` -/

/-- The reconciled counter is `state.Counter + 1` whatever the proposed nonce. -/
theorem nextCounter_reconciled (n w : Int) : (if n ≠ w then w else n) = w := by
  by_cases h : n = w <;> simp [h]

/-- When the source address does not parse, `completeOp` leaves the operation as
it was, sends nothing and returns the invalid-from-address error. -/
theorem completeOp_from_error (env : Env) (c : tezosConnector) (op : Op) (fromString : String)
    (nonce : Option Int) (e : Error) (ha : env.ParseAddress fromString = .error e) :
    completeOp env c op fromString nonce =
      ⟨op, some (Error.invalidFromAddress fromString e), []⟩ := by
  simp [completeOp, ha]

/-- When the account-state read fails, `completeOp` returns its error. -/
theorem completeOp_state_error (env : Env) (c : tezosConnector) (op : Op) (fromString : String)
    (nonce : Option Int) (a : Address) (e : Error)
    (ha : env.ParseAddress fromString = .ok a) (hs : env.GetContractExt a = .error e) :
    completeOp env c op fromString nonce =
      ⟨attached env c op a, some e, [Call.getBlockHash, Call.getContractExt a]⟩ := by
  simp only [completeOp, ha, hs, attached, branchOf]

/-- On a revealed account `completeOp` numbers the entries from
`state.Counter + 1` and asks the signatory service nothing. -/
theorem completeOp_revealed (env : Env) (c : tezosConnector) (op : Op) (fromString : String)
    (nonce : Option Int) (a : Address) (state : ContractInfo)
    (ha : env.ParseAddress fromString = .ok a) (hs : env.GetContractExt a = .ok state)
    (hr : state.Revealed = true) :
    completeOp env c op fromString nonce =
      ⟨{ attached env c op a with
          Contents := assignCounters (wrapInt64 (state.Counter + 1)) (attached env c op a).Contents },
        none, [Call.getBlockHash, Call.getContractExt a]⟩ := by
  simp only [completeOp, ha, hs, attached, branchOf, ContractInfo.IsRevealed, hr,
    nextCounter_reconciled]
  simp

/-- On an unrevealed account whose key lookup fails `completeOp` returns the
lookup error. -/
theorem completeOp_key_error (env : Env) (c : tezosConnector) (op : Op) (fromString : String)
    (nonce : Option Int) (a : Address) (state : ContractInfo) (e : Error)
    (ha : env.ParseAddress fromString = .ok a) (hs : env.GetContractExt a = .ok state)
    (hr : state.Revealed = false)
    (hk : (getPubKeyFromSignatory env c (env.addressString a)).1 = .error e) :
    completeOp env c op fromString nonce =
      ⟨attached env c op a, some e,
        [Call.getBlockHash, Call.getContractExt a] ++
          (getPubKeyFromSignatory env c (env.addressString a)).2⟩ := by
  rcases hp : getPubKeyFromSignatory env c (env.addressString a) with ⟨res, calls⟩
  rw [hp] at hk
  simp only at hk
  subst hk
  simp only [completeOp, ha, hs, attached, branchOf, ContractInfo.IsRevealed, hr,
    Op.WithSource, Op.WithBranch, Op.WithParams]
  simp [hp]

/-- On an unrevealed account whose key lookup succeeds `completeOp` puts the
`Reveal` in front and numbers the entries from `state.Counter + 1`. -/
theorem completeOp_unrevealed (env : Env) (c : tezosConnector) (op : Op) (fromString : String)
    (nonce : Option Int) (a : Address) (state : ContractInfo) (k : Key)
    (ha : env.ParseAddress fromString = .ok a) (hs : env.GetContractExt a = .ok state)
    (hr : state.Revealed = false)
    (hk : (getPubKeyFromSignatory env c (env.addressString a)).1 = .ok k) :
    completeOp env c op fromString nonce =
      ⟨{ attached env c op a with
          Contents := assignCounters (wrapInt64 (state.Counter + 1))
            (revealOf env a k :: (attached env c op a).Contents) },
        none,
        [Call.getBlockHash, Call.getContractExt a] ++
          (getPubKeyFromSignatory env c (env.addressString a)).2⟩ := by
  rcases hp : getPubKeyFromSignatory env c (env.addressString a) with ⟨res, calls⟩
  rw [hp] at hk
  simp only at hk
  subst hk
  simp only [completeOp, ha, hs, attached, branchOf, ContractInfo.IsRevealed, hr,
    Op.WithSource, Op.WithBranch, Op.WithParams, nextCounter_reconciled, revealOf,
    Op.WithContentsFront]
  simp [hp]

/-! ## `buildOp` and `TransactionPrepare` -/

/-- With a destination that parses, `buildOp` returns the operation `completeOp`
leaves behind, whatever `completeOp` returned, and no error. -/
theorem buildOp_to_ok (env : Env) (c : tezosConnector) (params : Parameters)
    (fromString toString : String) (nonce : Option Int) (d : Address)
    (hd : env.ParseAddress toString = .ok d) :
    buildOp env c params fromString toString nonce =
      ⟨some (completeOp env c
          (NewOp.WithContents ((TxArgs.zero.WithParameters params).WithDestination d).Encode)
          fromString nonce).op,
        none,
        (completeOp env c
          (NewOp.WithContents ((TxArgs.zero.WithParameters params).WithDestination d).Encode)
          fromString nonce).calls⟩ := by
  simp [buildOp, hd]

/-- With a destination that does not parse, `buildOp` returns no operation and
the invalid-to-address error, and sends nothing. -/
theorem buildOp_to_error (env : Env) (c : tezosConnector) (params : Parameters)
    (fromString toString : String) (nonce : Option Int) (e : Error)
    (hd : env.ParseAddress toString = .error e) :
    buildOp env c params fromString toString nonce =
      ⟨none, some (Error.invalidToAddress toString e), []⟩ := by
  simp [buildOp, hd]

/-- The entries of the operation `buildOp` hands to `completeOp`, once the source
is attached: the one `Transaction`, with counter `0`. -/
theorem attached_fresh_contents (env : Env) (c : tezosConnector) (params : Parameters)
    (a d : Address) :
    (attached env c
      (NewOp.WithContents ((TxArgs.zero.WithParameters params).WithDestination d).Encode)
      a).Contents = [Operation.transaction ⟨a, 0, 0, 0, 0⟩ 0 d params] := by
  simp [attached, Op.WithParams, Op.WithBranch, Op.WithSource, Op.WithContents, NewOp,
    TxArgs.Encode, TxArgs.WithDestination, TxArgs.WithParameters, TxArgs.zero,
    Operation.WithSource, Manager.ofSource]

/-- C10: `buildOp` returns an error exactly when the destination address does
not parse. When the destination parses, whatever the source text, the nonce,
the chain node and the signatory service do, `buildOp` returns an operation,
the one `completeOp` left behind, and a nil error: the error `completeOp`
returned plays no part. -/
theorem buildOp_error_iff_to_invalid (env : Env) (c : tezosConnector) (params : Parameters)
    (fromString toString : String) (nonce : Option Int) :
    ((buildOp env c params fromString toString nonce).err.isSome = true ↔
      ∃ e, env.ParseAddress toString = .error e) ∧
    (∀ d, env.ParseAddress toString = .ok d →
      (buildOp env c params fromString toString nonce).err = none ∧
      (buildOp env c params fromString toString nonce).op =
        some (completeOp env c
          (NewOp.WithContents ((TxArgs.zero.WithParameters params).WithDestination d).Encode)
          fromString nonce).op) := by
  constructor
  · cases hd : env.ParseAddress toString with
    | error e => simp [buildOp_to_error env c params fromString toString nonce e hd]
    | ok d => simp [buildOp_to_ok env c params fromString toString nonce d hd]
  · intro d hd
    rw [buildOp_to_ok env c params fromString toString nonce d hd]
    exact ⟨rfl, rfl⟩

/-- C10 on a concrete input: the source text `src` does not parse, `completeOp`
returns the invalid-from-address error, and `buildOp` still returns an
operation and no error. -/
theorem buildOp_error_iff_to_invalid_witness :
    sampleEnv.ParseAddress "tz1dst" = .ok ⟨"tz1dst"⟩ ∧
    (completeOp sampleEnv sampleConnector
        (NewOp.WithContents
          ((TxArgs.zero.WithParameters Parameters.zero).WithDestination ⟨"tz1dst"⟩).Encode)
        "src" (some 999)).err =
      some (Error.invalidFromAddress "src" (Error.library "invalid address")) ∧
    ((buildOp sampleEnv sampleConnector Parameters.zero "src" "tz1dst" (some 999)).err = none ∧
      (buildOp sampleEnv sampleConnector Parameters.zero "src" "tz1dst" (some 999)).op =
        some (completeOp sampleEnv sampleConnector
          (NewOp.WithContents
            ((TxArgs.zero.WithParameters Parameters.zero).WithDestination ⟨"tz1dst"⟩).Encode)
          "src" (some 999)).op) :=
  ⟨rfl, by decide,
   (buildOp_error_iff_to_invalid sampleEnv sampleConnector Parameters.zero "src" "tz1dst"
      (some 999)).2 ⟨"tz1dst"⟩ rfl⟩

/-- C3: when both addresses parse and the account state read answers with a
revealed account, the operation `buildOp` returns holds exactly one entry, the
`Transaction` to the destination with the given parameters, and no `Reveal`;
the only requests sent are the two reads of the chain node, none goes to the
signatory service. -/
theorem buildOp_revealed_single_transaction (env : Env) (c : tezosConnector)
    (params : Parameters) (fromString toString : String) (nonce : Option Int)
    (a d : Address) (state : ContractInfo)
    (hd : env.ParseAddress toString = .ok d) (ha : env.ParseAddress fromString = .ok a)
    (hs : env.GetContractExt a = .ok state) (hr : state.IsRevealed = true) :
    (buildOp env c params fromString toString nonce).err = none ∧
    (buildOp env c params fromString toString nonce).op.map Op.Contents =
      some [Operation.transaction ⟨a, 0, wrapInt64 (state.Counter + 1), 0, 0⟩ 0 d params] ∧
    (buildOp env c params fromString toString nonce).op.map (fun o => o.Contents.length) =
      some 1 ∧
    (buildOp env c params fromString toString nonce).op.map
      (fun o => o.Contents.any Operation.isReveal) = some false ∧
    (buildOp env c params fromString toString nonce).calls =
      [Call.getBlockHash, Call.getContractExt a] ∧
    (buildOp env c params fromString toString nonce).calls.any Call.isSignatory = false := by
  rw [buildOp_to_ok env c params fromString toString nonce d hd,
    completeOp_revealed env c _ fromString nonce a state ha hs hr,
    attached_fresh_contents]
  simp [assignCounters, Operation.GetCounter, Operation.WithCounter, Operation.isReveal,
    Call.isSignatory]

/-- C3 on a concrete input: a revealed account with counter `41`. -/
theorem buildOp_revealed_single_transaction_witness :
    (buildOp { sampleEnv with GetContractExt := fun _ => .ok ⟨41, true⟩ } sampleConnector
        ⟨"default", "[1]"⟩ "tz1src" "tz1dst" (some 999)).op.map Op.Contents =
      some [Operation.transaction ⟨⟨"tz1src"⟩, 0, wrapInt64 (41 + 1), 0, 0⟩ 0 ⟨"tz1dst"⟩
        ⟨"default", "[1]"⟩] ∧
    (buildOp { sampleEnv with GetContractExt := fun _ => .ok ⟨41, true⟩ } sampleConnector
        ⟨"default", "[1]"⟩ "tz1src" "tz1dst" (some 999)).calls.any Call.isSignatory = false :=
  ⟨(buildOp_revealed_single_transaction
      { sampleEnv with GetContractExt := fun _ => .ok ⟨41, true⟩ } sampleConnector
      ⟨"default", "[1]"⟩ "tz1src" "tz1dst" (some 999) ⟨"tz1src"⟩ ⟨"tz1dst"⟩ ⟨41, true⟩
      rfl rfl rfl rfl).2.1,
   (buildOp_revealed_single_transaction
      { sampleEnv with GetContractExt := fun _ => .ok ⟨41, true⟩ } sampleConnector
      ⟨"default", "[1]"⟩ "tz1src" "tz1dst" (some 999) ⟨"tz1src"⟩ ⟨"tz1dst"⟩ ⟨41, true⟩
      rfl rfl rfl rfl).2.2.2.2.2⟩

/-- C5, as the code has it: for every request whose destination address does
not parse, `TransactionPrepare` returns no response, the reason invalid-input
and an error, `buildOp` builds no operation, and no request is sent to the
chain node or to the signatory service; when moreover the call parameters
decode, the error is the invalid-to-address error carrying the destination
text. -/
theorem TransactionPrepare_to_invalid (env : Env) (c : tezosConnector)
    (req : TransactionPrepareRequest) (e : Error)
    (hd : env.ParseAddress req.To = .error e) :
    (TransactionPrepare env c req).response = none ∧
    (TransactionPrepare env c req).reason = ErrorReason.InvalidInputs ∧
    (TransactionPrepare env c req).calls = [] ∧
    (TransactionPrepare env c req).err.isSome = true ∧
    (∀ params, (buildOp env c params req.From req.To req.Nonce).op = none) ∧
    ((prepareInputParams env req.Params).2 = none →
      (TransactionPrepare env c req).err = some (Error.invalidToAddress req.To e)) := by
  have hb : ∀ params, (buildOp env c params req.From req.To req.Nonce).op = none := by
    intro params
    rw [buildOp_to_error env c params req.From req.To req.Nonce e hd]
  rcases hp : prepareInputParams env req.Params with ⟨params, _ | perr⟩
  · simp [TransactionPrepare, hp, buildOp_to_error env c params req.From req.To req.Nonce e hd,
      hb]
  · simp [TransactionPrepare, hp, hb]

/-- C5 on a concrete request: the destination text `dst` does not parse and the
parameters decode. -/
theorem TransactionPrepare_to_invalid_witness :
    (TransactionPrepare sampleEnv sampleConnector
        ⟨"tz1src", "dst", some 999, some 5, [some "[1]"]⟩).response = none ∧
    (TransactionPrepare sampleEnv sampleConnector
        ⟨"tz1src", "dst", some 999, some 5, [some "[1]"]⟩).err =
      some (Error.invalidToAddress "dst" (Error.library "invalid address")) :=
  ⟨(TransactionPrepare_to_invalid sampleEnv sampleConnector
      ⟨"tz1src", "dst", some 999, some 5, [some "[1]"]⟩ (Error.library "invalid address")
      rfl).1,
   (TransactionPrepare_to_invalid sampleEnv sampleConnector
      ⟨"tz1src", "dst", some 999, some 5, [some "[1]"]⟩ (Error.library "invalid address")
      rfl).2.2.2.2.2 (by decide)⟩

/-- C5 as stated fails: the destination text `dst` does not parse, but the
parameter text `1` does not decode either, and the error returned is the
parameter error, not an invalid-to-address error. -/
theorem TransactionPrepare_to_invalid_counterexample :
    sampleEnv.ParseAddress "dst" = .error (Error.library "invalid address") ∧
    (TransactionPrepare sampleEnv sampleConnector
        ⟨"tz1src", "dst", some 999, some 5, [some "1"]⟩).err =
      some (Error.unmarshalParamFail 0 (Error.library "invalid parameters")) ∧
    ¬ ∃ cause, (TransactionPrepare sampleEnv sampleConnector
        ⟨"tz1src", "dst", some 999, some 5, [some "1"]⟩).err =
      some (Error.invalidToAddress "dst" cause) := by
  refine ⟨rfl, by decide, ?_⟩
  rintro ⟨cause, h⟩
  have h0 : (TransactionPrepare sampleEnv sampleConnector
        ⟨"tz1src", "dst", some 999, some 5, [some "1"]⟩).err =
      some (Error.unmarshalParamFail 0 (Error.library "invalid parameters")) := by decide
  rw [h0] at h
  cases h

/-- C6 at a failing input: parameters decode, both addresses parse, the account
is unrevealed and the signatory service answers `404`. `completeOp` returns the
wrong-status error, and `TransactionPrepare` still returns a response, the
bytes of the operation without `Reveal` and without counters, with an empty
reason and a nil error. -/
theorem TransactionPrepare_completion_error_dropped :
    prepareInputParams sampleEnv [some "[1]"] = (⟨"default", "[1]"⟩, none) ∧
    sampleEnv.ParseAddress "tz1dst" = .ok ⟨"tz1dst"⟩ ∧
    (completeOp { sampleEnv with Do := fun _ => .ok ⟨404, .ok ""⟩ } sampleConnector
        (NewOp.WithContents
          ((TxArgs.zero.WithParameters ⟨"default", "[1]"⟩).WithDestination ⟨"tz1dst"⟩).Encode)
        "tz1src" (some 999)).err = some (Error.wrongStatusCode 404) ∧
    (buildOp { sampleEnv with Do := fun _ => .ok ⟨404, .ok ""⟩ } sampleConnector
        ⟨"default", "[1]"⟩ "tz1src" "tz1dst" (some 999)).op.map Op.Contents =
      some [Operation.transaction ⟨⟨"tz1src"⟩, 0, 0, 0, 0⟩ 0 ⟨"tz1dst"⟩ ⟨"default", "[1]"⟩] ∧
    TransactionPrepare { sampleEnv with Do := fun _ => .ok ⟨404, .ok ""⟩ } sampleConnector
        ⟨"tz1src", "tz1dst", some 999, some 5, [some "[1]"]⟩ =
      ⟨some ⟨some 5, "00"⟩, ErrorReason.empty, none,
        [Call.getBlockHash, Call.getContractExt ⟨"tz1src"⟩,
          Call.signatoryGet "http://signatory/keys/tz1src"]⟩ := by
  refine ⟨by decide, rfl, by decide, by decide, by decide⟩

/-! ## The branch read -/

/-- The network preset does not depend on what the chain node answers. -/
theorem getNetworkParamsByName_branch (env : Env) (r : Except Error BlockHash) (name : String) :
    getNetworkParamsByName { env with GetBlockHash := r } name =
      getNetworkParamsByName env name := rfl

/-- The key lookup does not depend on what the head hash read answers. -/
theorem getPubKeyFromSignatory_branch (env : Env) (r : Except Error BlockHash)
    (c : tezosConnector) (t : String) :
    getPubKeyFromSignatory { env with GetBlockHash := r } c t =
      getPubKeyFromSignatory env c t := rfl

/-- C7: a failed head hash read is tolerated. On every input on which
`completeOp` succeeds when the head hash read answers `h`, it also succeeds
when that read fails; it sends the same requests, and the operation is the same
(entries and their counters, source, network parameters) with the empty hash
as branch. -/
theorem completeOp_branch_failure_tolerated (env : Env) (c : tezosConnector) (op : Op)
    (fromString : String) (nonce : Option Int) (h : BlockHash) (e : Error)
    (hok : (completeOp { env with GetBlockHash := .ok h } c op fromString nonce).err = none) :
    (completeOp { env with GetBlockHash := .error e } c op fromString nonce).err = none ∧
    (completeOp { env with GetBlockHash := .error e } c op fromString nonce).op =
      { (completeOp { env with GetBlockHash := .ok h } c op fromString nonce).op with
        Branch := BlockHash.zero } ∧
    (completeOp { env with GetBlockHash := .error e } c op fromString nonce).op.Branch =
      BlockHash.zero ∧
    (completeOp { env with GetBlockHash := .error e } c op fromString nonce).calls =
      (completeOp { env with GetBlockHash := .ok h } c op fromString nonce).calls := by
  cases ha : env.ParseAddress fromString with
  | error e1 =>
    rw [completeOp_from_error { env with GetBlockHash := .ok h } c op fromString nonce e1 ha]
      at hok
    simp at hok
  | ok a =>
    cases hs : env.GetContractExt a with
    | error e1 =>
      rw [completeOp_state_error { env with GetBlockHash := .ok h } c op fromString nonce a e1
        ha hs] at hok
      simp at hok
    | ok state =>
      cases hr : state.Revealed with
      | true =>
        rw [completeOp_revealed { env with GetBlockHash := .ok h } c op fromString nonce a state
            ha hs hr,
          completeOp_revealed { env with GetBlockHash := .error e } c op fromString nonce a state
            ha hs hr]
        simp [attached, branchOf, Op.WithParams, Op.WithBranch, Op.WithSource,
          getNetworkParamsByName_branch]
      | false =>
        cases hk : (getPubKeyFromSignatory env c (env.addressString a)).1 with
        | error e1 =>
          rw [completeOp_key_error { env with GetBlockHash := .ok h } c op fromString nonce a
            state e1 ha hs hr hk] at hok
          simp at hok
        | ok k =>
          rw [completeOp_unrevealed { env with GetBlockHash := .ok h } c op fromString nonce a
              state k ha hs hr hk,
            completeOp_unrevealed { env with GetBlockHash := .error e } c op fromString nonce a
              state k ha hs hr hk]
          simp [attached, branchOf, Op.WithParams, Op.WithBranch, Op.WithSource,
            getNetworkParamsByName_branch, revealOf, getPubKeyFromSignatory_branch]

/-- C7 on a concrete input: the head hash read times out. -/
theorem completeOp_branch_failure_tolerated_witness :
    (completeOp { sampleEnv with GetBlockHash := .ok ⟨"BLhead"⟩ } sampleConnector
      (NewOp.WithContents TxArgs.zero.Encode) "tz1src" (some 999)).err = none ∧
    (completeOp { sampleEnv with GetBlockHash := .error (Error.library "timeout") }
      sampleConnector (NewOp.WithContents TxArgs.zero.Encode) "tz1src" (some 999)).err = none ∧
    (completeOp { sampleEnv with GetBlockHash := .error (Error.library "timeout") }
      sampleConnector (NewOp.WithContents TxArgs.zero.Encode) "tz1src" (some 999)).op.Branch =
      BlockHash.zero :=
  ⟨by decide,
   (completeOp_branch_failure_tolerated sampleEnv sampleConnector
      (NewOp.WithContents TxArgs.zero.Encode) "tz1src" (some 999) ⟨"BLhead"⟩
      (Error.library "timeout") (by decide)).1,
   (completeOp_branch_failure_tolerated sampleEnv sampleConnector
      (NewOp.WithContents TxArgs.zero.Encode) "tz1src" (some 999) ⟨"BLhead"⟩
      (Error.library "timeout") (by decide)).2.2.1⟩

/-! ## The counter loop -/

/-- Inside the `int64` range the wrap is the identity. -/
theorem wrapInt64_of_range (x : Int) (hlo : minInt64 ≤ x) (hhi : x ≤ maxInt64) :
    wrapInt64 x = x := by
  simp only [wrapInt64, minInt64, maxInt64] at *
  omega

/-- The empty sequence has no entry to number. -/
theorem managerCount_nil : managerCount [] = 0 := rfl

/-- An entry with a negative `GetCounter` does not count. -/
theorem managerCount_cons_neg (x : Operation) (l : List Operation) (h : x.GetCounter < 0) :
    managerCount (x :: l) = managerCount l := by
  have : ¬ (0 ≤ x.GetCounter) := not_le.mpr h
  simp [managerCount, List.filter, this]

/-- An entry with a non-negative `GetCounter` counts for one. -/
theorem managerCount_cons_nonneg (x : Operation) (l : List Operation) (h : 0 ≤ x.GetCounter) :
    managerCount (x :: l) = managerCount l + 1 := by
  simp [managerCount, List.filter, h]

/-- A sequence that holds an entry with a non-negative `GetCounter` has a
positive count. -/
theorem managerCount_pos_of_getElem (l : List Operation) :
    ∀ (i : Nat) (e : Operation), l[i]? = some e → 0 ≤ e.GetCounter → 0 < managerCount l := by
  induction l with
  | nil => intro i e h; simp at h
  | cons x rest ih =>
    intro i e h he
    by_cases hx : x.GetCounter < 0
    · rw [managerCount_cons_neg x rest hx]
      cases i with
      | zero =>
        simp at h
        subst h
        omega
      | succ j =>
        simp at h
        exact ih j e h he
    · rw [managerCount_cons_nonneg x rest (not_lt.mp hx)]
      omega

/-- The counter loop keeps the number of entries. -/
theorem assignCounters_length (l : List Operation) :
    ∀ next : Int, (assignCounters next l).length = l.length := by
  induction l with
  | nil => intro next; rfl
  | cons x rest ih =>
    intro next
    by_cases hx : x.GetCounter < 0 <;> simp [assignCounters, hx, ih]

/-- The counter loop changes nothing when no entry has a non-negative
`GetCounter`. -/
theorem assignCounters_of_managerCount_zero (l : List Operation) :
    ∀ next : Int, managerCount l = 0 → assignCounters next l = l := by
  induction l with
  | nil => intro next _; rfl
  | cons x rest ih =>
    intro next h
    by_cases hx : x.GetCounter < 0
    · rw [managerCount_cons_neg x rest hx] at h
      simp [assignCounters, hx, ih next h]
    · rw [managerCount_cons_nonneg x rest (not_lt.mp hx)] at h
      omega

/-- A manager entry reads back the counter it was given. -/
theorem GetCounter_WithCounter (x : Operation) (n : Int) (h : 0 ≤ x.GetCounter) :
    (x.WithCounter n).GetCounter = n := by
  cases x with
  | reveal m k => rfl
  | transaction m amt d p => rfl
  | simple => simp [Operation.GetCounter] at h

/-- The counter loop, entry by entry: as long as the values handed out stay in
the `int64` range, an entry with a negative `GetCounter` is left as it is, and
an entry with a non-negative one takes `next` plus the number of entries
numbered before it. -/
theorem assignCounters_getElem (l : List Operation) :
    ∀ (next : Int), minInt64 ≤ next → next + managerCount l ≤ maxInt64 + 1 →
      ∀ (i : Nat) (e : Operation), l[i]? = some e →
        (e.GetCounter < 0 → (assignCounters next l)[i]? = some e) ∧
        (0 ≤ e.GetCounter →
          (assignCounters next l)[i]? =
            some (e.WithCounter (next + managerCount (l.take i)))) := by
  induction l with
  | nil => intro next _ _ i e h; simp at h
  | cons x rest ih =>
    intro next hlo hhi i e h
    by_cases hx : x.GetCounter < 0
    · rw [managerCount_cons_neg x rest hx] at hhi
      cases i with
      | zero =>
        simp at h
        subst h
        constructor
        · intro _; simp [assignCounters, hx]
        · intro h0; omega
      | succ j =>
        simp at h
        have := ih next hlo hhi j e h
        simp only [assignCounters, hx, if_true, List.getElem?_cons_succ, List.take_succ_cons,
          managerCount_cons_neg x _ hx]
        exact this
    · have hx0 : 0 ≤ x.GetCounter := not_lt.mp hx
      rw [managerCount_cons_nonneg x rest hx0] at hhi
      cases i with
      | zero =>
        simp at h
        subst h
        constructor
        · intro h0; omega
        · intro _; simp [assignCounters, hx, managerCount_nil]
      | succ j =>
        simp at h
        simp only [assignCounters, hx, if_false, List.getElem?_cons_succ, List.take_succ_cons,
          managerCount_cons_nonneg x _ hx0]
        by_cases hz : managerCount rest = 0
        · rw [assignCounters_of_managerCount_zero rest _ hz]
          constructor
          · intro _; exact h
          · intro he
            have := managerCount_pos_of_getElem rest j e h he
            omega
        · have hw : wrapInt64 (next + 1) = next + 1 := by
            apply wrapInt64_of_range
            · omega
            · simp only [maxInt64] at *; omega
          rw [hw]
          have := ih (next + 1) (by omega) (by push_cast at hhi ⊢; omega) j e h
          refine ⟨this.1, fun he => ?_⟩
          rw [this.2 he]
          push_cast
          congr 2
          ring

/-- No entry is numbered when no entry has a non-negative `GetCounter`. -/
theorem numbered_nil_of_managerCount_zero (l : List Operation) :
    ∀ l2 : List Operation, managerCount l = 0 →
      ((l.zip l2).filter (fun q => decide (0 ≤ q.1.GetCounter))).map
        (fun q => q.2.GetCounter) = [] := by
  induction l with
  | nil => intro l2 _; simp
  | cons x rest ih =>
    intro l2 h
    cases l2 with
    | nil => simp
    | cons y rest2 =>
      by_cases hx : x.GetCounter < 0
      · rw [managerCount_cons_neg x rest hx] at h
        have hx1 : ¬ (0 ≤ x.GetCounter) := not_le.mpr hx
        simp only [List.zip_cons_cons, List.filter, hx1, decide_False]
        exact ih rest2 h
      · rw [managerCount_cons_nonneg x rest (not_lt.mp hx)] at h
        omega

/-- The counter loop, as a whole: as long as the values handed out stay in the
`int64` range, the counters carried afterwards by the entries that had a
non-negative `GetCounter` are, in content order, `next`, `next + 1`, ... -/
theorem assignCounters_counters (l : List Operation) :
    ∀ (next : Int), minInt64 ≤ next → next + managerCount l ≤ maxInt64 + 1 →
      ((l.zip (assignCounters next l)).filter (fun q => decide (0 ≤ q.1.GetCounter))).map
        (fun q => q.2.GetCounter) =
      (List.range (managerCount l)).map (fun (j : Nat) => next + (j : Int)) := by
  induction l with
  | nil => intro next _ _; simp [assignCounters, managerCount_nil]
  | cons x rest ih =>
    intro next hlo hhi
    by_cases hx : x.GetCounter < 0
    · have hx1 : ¬ (0 ≤ x.GetCounter) := not_le.mpr hx
      rw [managerCount_cons_neg x rest hx] at hhi ⊢
      simp only [assignCounters, hx, if_true, List.zip_cons_cons, List.filter, hx1,
        decide_False]
      exact ih next hlo hhi
    · have hx0 : 0 ≤ x.GetCounter := not_lt.mp hx
      rw [managerCount_cons_nonneg x rest hx0] at hhi ⊢
      simp only [assignCounters, hx, if_false, List.zip_cons_cons, List.filter, hx0,
        decide_True, List.map_cons, GetCounter_WithCounter x next hx0,
        List.range_succ_eq_map, List.map_map]
      by_cases hz : managerCount rest = 0
      · rw [numbered_nil_of_managerCount_zero rest _ hz, hz]
        simp
      · have hw : wrapInt64 (next + 1) = next + 1 := by
          apply wrapInt64_of_range
          · omega
          · simp only [maxInt64] at *; omega
        rw [hw, ih (next + 1) (by omega) (by push_cast at hhi ⊢; omega)]
        simp only [Nat.cast_zero, add_zero, List.cons.injEq, true_and]
        apply List.map_congr_left
        intro j _
        simp only [Function.comp, Nat.cast_succ]
        ring

/-- When `completeOp` returns no error, the entries of the operation are those
the counter loop makes of `contentsBeforeCounters`, started at the wrapped
`state.Counter + 1`. -/
theorem completeOp_contents (env : Env) (c : tezosConnector) (op : Op) (fromString : String)
    (nonce : Option Int) (a : Address) (state : ContractInfo)
    (ha : env.ParseAddress fromString = .ok a) (hs : env.GetContractExt a = .ok state)
    (hok : (completeOp env c op fromString nonce).err = none) :
    (completeOp env c op fromString nonce).op.Contents =
      assignCounters (wrapInt64 (state.Counter + 1))
        (contentsBeforeCounters env c op a state) := by
  cases hr : state.Revealed with
  | true =>
    rw [completeOp_revealed env c op fromString nonce a state ha hs hr]
    simp [contentsBeforeCounters, ContractInfo.IsRevealed, hr, attached, Op.WithParams,
      Op.WithBranch]
  | false =>
    cases hk : (getPubKeyFromSignatory env c (env.addressString a)).1 with
    | error e1 =>
      rw [completeOp_key_error env c op fromString nonce a state e1 ha hs hr hk] at hok
      simp at hok
    | ok k =>
      rw [completeOp_unrevealed env c op fromString nonce a state k ha hs hr hk]
      simp [contentsBeforeCounters, ContractInfo.IsRevealed, hr, hk, attached, Op.WithParams,
        Op.WithBranch]

/-- C1, as the code has it: let `completeOp` succeed on an account with counter
`c`, and let `k` be the number of entries with a non-negative `GetCounter` the
counter loop runs over. If `c + k` does not overflow `int64`, then whatever
the proposed nonce, the operation has as many entries as before, every entry
whose `GetCounter` was negative is unchanged, every entry whose `GetCounter`
was non-negative is that entry with counter `c + 1 + j`, `j` being the number
of such entries before it, and the counters of these entries are, in content
order, `c + 1`, `c + 2`, ..., `c + k`. -/
theorem completeOp_counters_consecutive (env : Env) (c : tezosConnector) (op : Op)
    (fromString : String) (nonce : Option Int) (a : Address) (state : ContractInfo)
    (ha : env.ParseAddress fromString = .ok a) (hs : env.GetContractExt a = .ok state)
    (hok : (completeOp env c op fromString nonce).err = none)
    (hlo : minInt64 ≤ state.Counter)
    (hhi : state.Counter + managerCount (contentsBeforeCounters env c op a state) ≤ maxInt64) :
    (completeOp env c op fromString nonce).op.Contents.length =
      (contentsBeforeCounters env c op a state).length ∧
    (∀ (i : Nat) (e : Operation), (contentsBeforeCounters env c op a state)[i]? = some e →
      (e.GetCounter < 0 → (completeOp env c op fromString nonce).op.Contents[i]? = some e) ∧
      (0 ≤ e.GetCounter →
        (completeOp env c op fromString nonce).op.Contents[i]? =
          some (e.WithCounter (state.Counter + 1 +
            managerCount ((contentsBeforeCounters env c op a state).take i))))) ∧
    (((contentsBeforeCounters env c op a state).zip
        (completeOp env c op fromString nonce).op.Contents).filter
          (fun q => decide (0 ≤ q.1.GetCounter))).map (fun q => q.2.GetCounter) =
      (List.range (managerCount (contentsBeforeCounters env c op a state))).map
        (fun (j : Nat) => state.Counter + 1 + (j : Int)) := by
  rw [completeOp_contents env c op fromString nonce a state ha hs hok]
  by_cases hz : managerCount (contentsBeforeCounters env c op a state) = 0
  · rw [assignCounters_of_managerCount_zero _ _ hz]
    refine ⟨rfl, ?_, ?_⟩
    · intro i e h
      refine ⟨fun _ => h, fun he => ?_⟩
      have := managerCount_pos_of_getElem _ i e h he
      omega
    · rw [numbered_nil_of_managerCount_zero _ _ hz, hz]
      simp
  · have hw : wrapInt64 (state.Counter + 1) = state.Counter + 1 := by
      apply wrapInt64_of_range
      · omega
      · simp only [maxInt64] at *; omega
    rw [hw]
    refine ⟨assignCounters_length _ _, ?_, ?_⟩
    · exact assignCounters_getElem _ (state.Counter + 1) (by omega) (by omega)
    · exact assignCounters_counters _ (state.Counter + 1) (by omega) (by omega)

/-- C1 on a concrete input: an unrevealed account with counter `41` and an
operation with a `Transaction`, an entry without counter and a second
`Transaction`; behind the `Reveal` the counters read `42, 43, -1, 44`. -/
theorem completeOp_counters_consecutive_witness :
    (completeOp sampleEnv sampleConnector
        (((NewOp.WithContents TxArgs.zero.Encode).WithContents Operation.simple).WithContents
          TxArgs.zero.Encode) "tz1src" (some 999)).op.Contents.map Operation.GetCounter =
      [42, 43, -1, 44] ∧
    (completeOp sampleEnv sampleConnector
        (((NewOp.WithContents TxArgs.zero.Encode).WithContents Operation.simple).WithContents
          TxArgs.zero.Encode) "tz1src" (some 999)).op.Contents.length =
      (contentsBeforeCounters sampleEnv sampleConnector
        (((NewOp.WithContents TxArgs.zero.Encode).WithContents Operation.simple).WithContents
          TxArgs.zero.Encode) ⟨"tz1src"⟩ ⟨41, false⟩).length :=
  ⟨by decide,
   (completeOp_counters_consecutive sampleEnv sampleConnector
      (((NewOp.WithContents TxArgs.zero.Encode).WithContents Operation.simple).WithContents
        TxArgs.zero.Encode) "tz1src" (some 999) ⟨"tz1src"⟩ ⟨41, false⟩ rfl rfl
      (by decide) (by decide) (by decide)).1⟩

/-- C1 as stated fails: on a revealed account with counter `c = 2^63 - 2`, for
which `c + 1` does not overflow, `completeOp` succeeds on an operation with
two `Transaction`s, both with counter `0` before; the first takes `c + 1` and
the second takes `-2^63`, not `c + 2`. -/
theorem completeOp_counters_consecutive_counterexample :
    minInt64 ≤ 9223372036854775806 ∧ (9223372036854775806 : Int) + 1 ≤ maxInt64 ∧
    ((NewOp.WithContents TxArgs.zero.Encode).WithContents TxArgs.zero.Encode).Contents.map
      Operation.GetCounter = [0, 0] ∧
    (completeOp { sampleEnv with GetContractExt := fun _ => .ok ⟨9223372036854775806, true⟩ }
      sampleConnector ((NewOp.WithContents TxArgs.zero.Encode).WithContents TxArgs.zero.Encode)
      "tz1src" (some 999)).err = none ∧
    (completeOp { sampleEnv with GetContractExt := fun _ => .ok ⟨9223372036854775806, true⟩ }
      sampleConnector ((NewOp.WithContents TxArgs.zero.Encode).WithContents TxArgs.zero.Encode)
      "tz1src" (some 999)).op.Contents.map Operation.GetCounter =
      [9223372036854775807, -9223372036854775808] ∧
    (completeOp { sampleEnv with GetContractExt := fun _ => .ok ⟨9223372036854775806, true⟩ }
      sampleConnector ((NewOp.WithContents TxArgs.zero.Encode).WithContents TxArgs.zero.Encode)
      "tz1src" (some 999)).op.Contents.map Operation.GetCounter ≠
      [9223372036854775806 + 1, 9223372036854775806 + 2] := by
  refine ⟨by decide, by decide, by decide, by decide, by decide, by decide⟩

/-! ## Reveal and transaction -/

/-- The entries `buildOp` returns for an unrevealed account whose key lookup
answers: the counter loop applied to the `Reveal` and the `Transaction`. -/
theorem buildOp_unrevealed_contents (env : Env) (c : tezosConnector) (params : Parameters)
    (fromString toString : String) (nonce : Option Int) (a d : Address) (state : ContractInfo)
    (k : Key)
    (hd : env.ParseAddress toString = .ok d) (ha : env.ParseAddress fromString = .ok a)
    (hs : env.GetContractExt a = .ok state) (hr : state.IsRevealed = false)
    (hk : (getPubKeyFromSignatory env c (env.addressString a)).1 = .ok k) :
    (buildOp env c params fromString toString nonce).op.map Op.Contents =
      some [(revealOf env a k).WithCounter (wrapInt64 (state.Counter + 1)),
        Operation.transaction
          ⟨a, 0, wrapInt64 (wrapInt64 (state.Counter + 1) + 1), 0, 0⟩ 0 d params] := by
  rw [buildOp_to_ok env c params fromString toString nonce d hd,
    completeOp_unrevealed env c _ fromString nonce a state k ha hs hr hk,
    attached_fresh_contents]
  simp [assignCounters, Operation.GetCounter, Operation.WithCounter, revealOf,
    Operation.WithLimits, Manager.ofSource]

/-- The entries `buildOp` returns for a revealed account: the `Transaction`
with the wrapped `state.Counter + 1`. -/
theorem buildOp_revealed_contents (env : Env) (c : tezosConnector) (params : Parameters)
    (fromString toString : String) (nonce : Option Int) (a d : Address) (state : ContractInfo)
    (hd : env.ParseAddress toString = .ok d) (ha : env.ParseAddress fromString = .ok a)
    (hs : env.GetContractExt a = .ok state) (hr : state.IsRevealed = true) :
    (buildOp env c params fromString toString nonce).op.map Op.Contents =
      some [Operation.transaction ⟨a, 0, wrapInt64 (state.Counter + 1), 0, 0⟩ 0 d params] := by
  rw [buildOp_to_ok env c params fromString toString nonce d hd,
    completeOp_revealed env c _ fromString nonce a state ha hs hr,
    attached_fresh_contents]
  simp [assignCounters, Operation.GetCounter, Operation.WithCounter]

/-- C2, as the code has it: when both addresses parse, the account state read
answers with an unrevealed account of counter `c`, `c + 2` does not overflow
`int64`, and the key lookup answers `K`, the operation `buildOp` returns holds
exactly the `Reveal` of the source with key `K` and the default reveal limits,
then the `Transaction` to the destination with the given parameters; the
`Reveal` has counter `c + 1`, the `Transaction` counter `c + 2`, so the first
is strictly below the second. -/
theorem buildOp_unrevealed_reveal_then_transaction (env : Env) (c : tezosConnector)
    (params : Parameters) (fromString toString : String) (nonce : Option Int)
    (a d : Address) (state : ContractInfo) (K : Key)
    (hd : env.ParseAddress toString = .ok d) (ha : env.ParseAddress fromString = .ok a)
    (hs : env.GetContractExt a = .ok state) (hr : state.IsRevealed = false)
    (hk : (getPubKeyFromSignatory env c (env.addressString a)).1 = .ok K)
    (hlo : minInt64 ≤ state.Counter) (hhi : state.Counter + 2 ≤ maxInt64) :
    (buildOp env c params fromString toString nonce).err = none ∧
    (buildOp env c params fromString toString nonce).op.map Op.Contents =
      some [Operation.reveal
          ⟨a, env.DefaultRevealLimits.Fee, state.Counter + 1, env.DefaultRevealLimits.GasLimit,
            env.DefaultRevealLimits.StorageLimit⟩ K,
        Operation.transaction ⟨a, 0, state.Counter + 2, 0, 0⟩ 0 d params] ∧
    (∃ r t : Int,
      (buildOp env c params fromString toString nonce).op.map
        (fun o => o.Contents.map Operation.GetCounter) = some [r, t] ∧
      r = state.Counter + 1 ∧ t = state.Counter + 2 ∧ r < t) := by
  have hw1 : wrapInt64 (state.Counter + 1) = state.Counter + 1 := by
    apply wrapInt64_of_range
    · omega
    · omega
  have hw2 : wrapInt64 (state.Counter + 1 + 1) = state.Counter + 2 := by
    rw [wrapInt64_of_range _ (by omega) (by omega)]
    ring
  have hc := buildOp_unrevealed_contents env c params fromString toString nonce a d state K
    hd ha hs hr hk
  rw [hw1, hw2] at hc
  have hc2 : (buildOp env c params fromString toString nonce).op.map Op.Contents =
      some [Operation.reveal
          ⟨a, env.DefaultRevealLimits.Fee, state.Counter + 1, env.DefaultRevealLimits.GasLimit,
            env.DefaultRevealLimits.StorageLimit⟩ K,
        Operation.transaction ⟨a, 0, state.Counter + 2, 0, 0⟩ 0 d params] := by
    rw [hc]
    simp [revealOf, Operation.WithLimits, Operation.WithCounter, Manager.ofSource]
  refine ⟨?_, hc2, state.Counter + 1, state.Counter + 2, ?_, rfl, rfl, by omega⟩
  · rw [buildOp_to_ok env c params fromString toString nonce d hd]
  · cases hb : (buildOp env c params fromString toString nonce).op with
    | none => rw [hb] at hc2; simp at hc2
    | some o =>
      rw [hb] at hc2
      simp only [Option.map_some', Option.some.injEq] at hc2
      simp [hc2, Operation.GetCounter]

/-- C2 on the input of the specification: counter `41`, unrevealed, key
`edpkK`, one parameter, proposed nonce `999`; the `Reveal` takes `42` and the
`Transaction` `43`. -/
theorem buildOp_unrevealed_reveal_then_transaction_witness :
    (buildOp sampleEnv sampleConnector ⟨"default", "[1]"⟩ "tz1src" "tz1dst" (some 999)).op.map
        Op.Contents =
      some [Operation.reveal ⟨⟨"tz1src"⟩, 1000, 41 + 1, 1000, 0⟩ ⟨"edpkK"⟩,
        Operation.transaction ⟨⟨"tz1src"⟩, 0, 41 + 2, 0, 0⟩ 0 ⟨"tz1dst"⟩ ⟨"default", "[1]"⟩] ∧
    (buildOp sampleEnv sampleConnector ⟨"default", "[1]"⟩ "tz1src" "tz1dst" (some 999)).op.map
        (fun o => o.Contents.map Operation.GetCounter) = some [42, 43] :=
  ⟨(buildOp_unrevealed_reveal_then_transaction sampleEnv sampleConnector ⟨"default", "[1]"⟩
      "tz1src" "tz1dst" (some 999) ⟨"tz1src"⟩ ⟨"tz1dst"⟩ ⟨41, false⟩ ⟨"edpkK"⟩
      rfl rfl rfl rfl rfl (by decide) (by decide)).2.1,
   by decide⟩

/-- C2 as stated fails: on an unrevealed account with counter `c = 2^63 - 2` the
`Reveal` takes `2^63 - 1` and the `Transaction` takes `-2^63`: the counter of
the `Reveal` is not below the counter of the `Transaction`, which is not
`c + 2`. -/
theorem buildOp_unrevealed_reveal_then_transaction_counterexample :
    sampleEnv.ParseAddress "tz1dst" = .ok ⟨"tz1dst"⟩ ∧
    sampleEnv.ParseAddress "tz1src" = .ok ⟨"tz1src"⟩ ∧
    (getPubKeyFromSignatory
      { sampleEnv with GetContractExt := fun _ => .ok ⟨9223372036854775806, false⟩ }
      sampleConnector "tz1src").1 = .ok ⟨"edpkK"⟩ ∧
    (buildOp { sampleEnv with GetContractExt := fun _ => .ok ⟨9223372036854775806, false⟩ }
      sampleConnector ⟨"default", "[1]"⟩ "tz1src" "tz1dst" (some 999)).op.map
        (fun o => o.Contents.map Operation.GetCounter) =
      some [9223372036854775807, -9223372036854775808] ∧
    ¬ ((9223372036854775807 : Int) < -9223372036854775808) ∧
    (-9223372036854775808 : Int) ≠ 9223372036854775806 + 2 := by
  refine ⟨rfl, rfl, rfl, by decide, by decide, by decide⟩

/-! ## The proposed nonce -/

/-- C4, as the code has it: let both addresses parse and the account state read
answer with counter `c`, the key lookup answering when the account is
unrevealed, and let the counters handed out not overflow `int64`. Whatever the
proposed nonce, equal to `c + 1` or not, the first entry takes `c + 1`: on a
revealed account the `Transaction` has counter `c + 1`; on an unrevealed one
the `Reveal` has `c + 1` and the `Transaction` `c + 2`. When the proposed
nonce reads `c + 1`, these are the entries the counter loop gives when started
at the caller's value. -/
theorem buildOp_nonce_reconciled (env : Env) (c : tezosConnector) (params : Parameters)
    (fromString toString : String) (nonce : Option Int) (a d : Address) (state : ContractInfo)
    (k : Key)
    (hd : env.ParseAddress toString = .ok d) (ha : env.ParseAddress fromString = .ok a)
    (hs : env.GetContractExt a = .ok state)
    (hk : state.IsRevealed = false →
      (getPubKeyFromSignatory env c (env.addressString a)).1 = .ok k)
    (hlo : minInt64 ≤ state.Counter)
    (hhi : state.Counter + (if state.IsRevealed then 1 else 2) ≤ maxInt64) :
    (buildOp env c params fromString toString nonce).op.map Op.Contents =
      some (if state.IsRevealed then
          [Operation.transaction ⟨a, 0, state.Counter + 1, 0, 0⟩ 0 d params]
        else
          [(revealOf env a k).WithCounter (state.Counter + 1),
            Operation.transaction ⟨a, 0, state.Counter + 2, 0, 0⟩ 0 d params]) ∧
    (FFBigInt.Int64 nonce = state.Counter + 1 →
      (buildOp env c params fromString toString nonce).op.map Op.Contents =
        some (assignCounters (FFBigInt.Int64 nonce)
          (if state.IsRevealed then [Operation.transaction ⟨a, 0, 0, 0, 0⟩ 0 d params]
           else [revealOf env a k, Operation.transaction ⟨a, 0, 0, 0, 0⟩ 0 d params]))) := by
  cases hr : state.IsRevealed with
  | true =>
    rw [hr] at hhi
    simp only [if_true] at hhi
    have hw1 : wrapInt64 (state.Counter + 1) = state.Counter + 1 :=
      wrapInt64_of_range _ (by omega) (by omega)
    have hc := buildOp_revealed_contents env c params fromString toString nonce a d state
      hd ha hs hr
    rw [hw1] at hc
    refine ⟨by simpa using hc, ?_⟩
    intro hn
    rw [hc, hn]
    simp [assignCounters, Operation.GetCounter, Operation.WithCounter]
  | false =>
    rw [hr] at hhi
    simp only [Bool.false_eq_true, if_false] at hhi
    have hw1 : wrapInt64 (state.Counter + 1) = state.Counter + 1 :=
      wrapInt64_of_range _ (by omega) (by omega)
    have hw2 : wrapInt64 (state.Counter + 1 + 1) = state.Counter + 2 := by
      rw [wrapInt64_of_range _ (by omega) (by omega)]
      ring
    have hc := buildOp_unrevealed_contents env c params fromString toString nonce a d state k
      hd ha hs hr (hk hr)
    rw [hw1, hw2] at hc
    refine ⟨by simpa using hc, ?_⟩
    intro hn
    rw [hc, hn]
    simp [assignCounters, Operation.GetCounter, Operation.WithCounter, revealOf,
      Operation.WithLimits, Manager.ofSource, hw2]

/-- C4 on concrete inputs: counter `41`, unrevealed. With the proposed nonce
`999` and with the proposed nonce `42` the entries are the same: the `Reveal`
with `42`, the `Transaction` with `43`. -/
theorem buildOp_nonce_reconciled_witness :
    (buildOp sampleEnv sampleConnector Parameters.zero "tz1src" "tz1dst" (some 999)).op.map
        Op.Contents =
      some [(revealOf sampleEnv ⟨"tz1src"⟩ ⟨"edpkK"⟩).WithCounter (41 + 1),
        Operation.transaction ⟨⟨"tz1src"⟩, 0, 41 + 2, 0, 0⟩ 0 ⟨"tz1dst"⟩ Parameters.zero] ∧
    (buildOp sampleEnv sampleConnector Parameters.zero "tz1src" "tz1dst" (some 42)).op.map
        Op.Contents =
      some (assignCounters (FFBigInt.Int64 (some 42))
        [revealOf sampleEnv ⟨"tz1src"⟩ ⟨"edpkK"⟩,
          Operation.transaction ⟨⟨"tz1src"⟩, 0, 0, 0, 0⟩ 0 ⟨"tz1dst"⟩ Parameters.zero]) :=
  ⟨(buildOp_nonce_reconciled sampleEnv sampleConnector Parameters.zero "tz1src" "tz1dst"
      (some 999) ⟨"tz1src"⟩ ⟨"tz1dst"⟩ ⟨41, false⟩ ⟨"edpkK"⟩ rfl rfl rfl (fun _ => rfl)
      (by decide) (by decide)).1,
   (buildOp_nonce_reconciled sampleEnv sampleConnector Parameters.zero "tz1src" "tz1dst"
      (some 42) ⟨"tz1src"⟩ ⟨"tz1dst"⟩ ⟨41, false⟩ ⟨"edpkK"⟩ rfl rfl rfl (fun _ => rfl)
      (by decide) (by decide)).2 (by decide)⟩

/-- C4 as stated fails: on the unrevealed account with counter `c = 41` and the
proposed nonce `999`, different from `c + 1`, the `Transaction` of the operation
`buildOp` returns has counter `43`, not `c + 1 = 42`, which the `Reveal` took. -/
theorem buildOp_nonce_reconciled_counterexample :
    sampleEnv.GetContractExt ⟨"tz1src"⟩ = .ok ⟨41, false⟩ ∧
    FFBigInt.Int64 (some 999) ≠ 41 + 1 ∧
    (buildOp sampleEnv sampleConnector Parameters.zero "tz1src" "tz1dst" (some 999)).op.map
        (fun o => (o.Contents.filter (fun e => !e.isReveal)).map Operation.GetCounter) =
      some [43] ∧
    (43 : Int) ≠ 41 + 1 := by
  refine ⟨rfl, by decide, by decide, by decide⟩

end Tezosconnect
